import Mathlib

/-!
# LiquidFun adapter for Box2D v3: collision filter and particle-system registry

A shallow embedding of `extern/liquidfun/liquid_callbacks.cpp` and
`extern/liquidfun/liquid_world.cpp`.

* Pointers are `Option Ptr`; `none` is `NULL`.
* The objects handed out by `m_blockAllocator` live in a heap `Ptr → Option b2ParticleSystem`.
* Calls into the rigid-body world (`b2Shape_GetFilter`, `b2World_IsLocked`) and into the
  particle solver (`GetFilterData`, `Solve`) are parameters or recorded events.
* A call returns `Except Fault _`: a failed active assertion and an access through a pointer
  to no object are faults, everything else is a normal return.
* `float` values are passed through untouched, so they are elements of an arbitrary type `F`.
-/

namespace LiquidFun

/-! ## Data model -/

/-- Shape handle of the rigid-body world. The declaration is in `box2d/id.h`; `index1` is the
member the code reads, `world0` and `generation` are the rest of the handle. -/
structure b2ShapeId where
  index1 : Int
  world0 : Nat
  generation : Nat
  deriving DecidableEq, Repr

/-- Modelled from the spec: the declaration of `b2Filter` is in the headers of the rigid-body
world. A filter descriptor is `{categoryBits: bitmask, maskBits: bitmask, groupIndex: signed
integer}`; the code reads exactly these three members. -/
structure b2Filter where
  categoryBits : Nat
  maskBits : Nat
  groupIndex : Int
  deriving DecidableEq, Repr

/-- Address of a particle system object. -/
abbrev Ptr := Nat

/-! ## liquid_callbacks.cpp -/

/-- Default `b2ContactFilter::ShouldCollide(b2ShapeId, b2ShapeId)`.
`b2Shape_GetFilter` is the rigid-body world's filter lookup. -/
def ShouldCollide (b2Shape_GetFilter : b2ShapeId → b2Filter) (fixtureA fixtureB : b2ShapeId) : Bool :=
  let filterA := b2Shape_GetFilter fixtureA
  let filterB := b2Shape_GetFilter fixtureB
  if filterA.groupIndex = filterB.groupIndex ∧ filterA.groupIndex ≠ 0 then
    decide (filterA.groupIndex > 0)
  else
    let collide := decide ((filterA.maskBits &&& filterB.categoryBits) ≠ 0)
      && decide ((filterA.categoryBits &&& filterB.maskBits) ≠ 0)
    collide

/-- Default `b2ContactFilter::ShouldCollide(b2ShapeId, b2ParticleSystem*, int32)`.
`GetFilterData` reads the filter of the particle system behind the pointer. -/
def ShouldCollideParticle (b2Shape_GetFilter : b2ShapeId → b2Filter) (GetFilterData : Ptr → b2Filter)
    (fixture : b2ShapeId) (particleSystem : Ptr) (_particleIndex : Int) : Bool :=
  let filterA := b2Shape_GetFilter fixture
  let filterB := GetFilterData particleSystem
  if filterA.groupIndex = filterB.groupIndex ∧ filterA.groupIndex ≠ 0 then
    decide (filterA.groupIndex > 0)
  else
    let collide := decide ((filterA.maskBits &&& filterB.categoryBits) ≠ 0)
      && decide ((filterA.categoryBits &&& filterB.maskBits) ≠ 0)
    collide

/-- Filter lookup of a rigid-body world in which the shape with `index1 = 1` carries the
descriptor `F1` and any other shape carries `F2`. -/
def twoShapeFilters (F1 F2 : b2Filter) (s : b2ShapeId) : b2Filter :=
  if s.index1 = 1 then F1 else F2

/-! ## liquid_world.cpp: data -/

/-- World handle of the rigid-body world, declared in `box2d/id.h`; the registry only stores
it and hands it back to the rigid-body world. -/
structure b2WorldId where
  index1 : Nat
  generation : Nat
  deriving DecidableEq, Repr

/-- Links `m_prev`, `m_next` of a particle system in the registry's doubly linked list. The
class is declared in `particle_system.h`; its other members belong to the particle solver and
are not read or written by the registry. -/
structure b2ParticleSystem where
  m_prev : Option Ptr
  m_next : Option Ptr
  deriving DecidableEq, Repr

/-- Objects currently held by `m_blockAllocator`, by address. -/
abbrev Heap := Ptr → Option b2ParticleSystem

/-- Target of `m_contactFilter`: the file-level `b2_liquid_defaultFilter` or a filter object
supplied by the caller. -/
inductive ContactFilterRef where
  | b2_liquid_defaultFilter
  | custom (addr : Ptr)
  deriving DecidableEq, Repr

/-- State of a `b2LiquidWorld`: the members the code in `liquid_world.cpp` assigns, with
`m_blockAllocator` holding the particle system objects. The version members set by the
constructor are constants and play no part in any operation. -/
structure b2LiquidWorld where
  m_worldId : b2WorldId
  m_particleSystemList : Option Ptr
  m_contactFilter : ContactFilterRef
  m_contactListener : Option Ptr
  m_blockAllocator : Heap

/-- Ways a call can stop without returning. -/
inductive Fault where
  | assertFailed
  | invalidPointer
  deriving DecidableEq, Repr

/-- Time step handed to `Solve`, with the five members of the initialiser
`{ dt, invDT, 0.0f, 1, false }` in that order; `F` stands for `float`, on which the driver does
no arithmetic. -/
structure b2TimeStep (F : Type) where
  dt : F
  inv_dt : F
  dtRatio : F
  particleIterations : Int
  warmStarting : Bool
  deriving DecidableEq, Repr

/-! ## liquid_world.cpp: operations -/

/-- Modelled from the spec: the macro `b2Assert` is defined in `settings.h`. Precondition
violations are "asserted/fatal in debug builds" and tolerated in release builds, so the build
is a parameter: with `assertsEnabled` a failed assertion stops the program, without it the
macro expands to nothing. -/
def b2Assert (assertsEnabled : Bool) (cond : Bool) : Except Fault Unit :=
  if assertsEnabled && !cond then .error .assertFailed else .ok ()

/-- Constructor `b2LiquidWorld::b2LiquidWorld(worldId)`. The constructor does not assign
`m_contactListener`; `listener0` is the value the member holds when the body has run. -/
def b2LiquidWorld.new (worldId : b2WorldId) (listener0 : Option Ptr) : b2LiquidWorld :=
  { m_worldId := worldId
    m_particleSystemList := none
    m_contactFilter := .b2_liquid_defaultFilter
    m_contactListener := listener0
    m_blockAllocator := fun _ => none }

/-- `b2LiquidWorld::IsLocked`: asks the rigid-body world. -/
def IsLocked (b2World_IsLocked : b2WorldId → Bool) (w : b2LiquidWorld) : Bool :=
  b2World_IsLocked w.m_worldId

/-- Read the object behind a pointer. -/
def load (heap : Heap) (p : Ptr) : Except Fault b2ParticleSystem :=
  match heap p with
  | none => .error .invalidPointer
  | some n => .ok n

/-- Assignment `q->m_next = v`. -/
def storeNext (heap : Heap) (q : Ptr) (v : Option Ptr) : Except Fault Heap :=
  match heap q with
  | none => .error .invalidPointer
  | some n => .ok (Function.update heap q (some { n with m_next := v }))

/-- Assignment `q->m_prev = v`. -/
def storePrev (heap : Heap) (q : Ptr) (v : Option Ptr) : Except Fault Heap :=
  match heap q with
  | none => .error .invalidPointer
  | some n => .ok (Function.update heap q (some { n with m_prev := v }))

/-- `b2LiquidWorld::CreateParticleSystem`. `mem` is the address `m_blockAllocator.Allocate`
returns. The result is the returned pointer and the new state. -/
def CreateParticleSystem (assertsEnabled : Bool) (b2World_IsLocked : b2WorldId → Bool)
    (w : b2LiquidWorld) (mem : Ptr) : Except Fault (Option Ptr × b2LiquidWorld) :=
  match b2Assert assertsEnabled (IsLocked b2World_IsLocked w == false) with
  | .error e => .error e
  | .ok () =>
    if IsLocked b2World_IsLocked w then
      .ok (none, w)
    else
      let p := mem
      -- p->m_prev = NULL; p->m_next = m_particleSystemList;
      let heap1 : Heap := Function.update w.m_blockAllocator p
        (some { m_prev := none, m_next := w.m_particleSystemList })
      -- if (m_particleSystemList) m_particleSystemList->m_prev = p;
      let linked : Except Fault Heap :=
        match w.m_particleSystemList with
        | some h => storePrev heap1 h (some p)
        | none => .ok heap1
      match linked with
      | .error e => .error e
      | .ok heap2 =>
        .ok (some p, { w with m_blockAllocator := heap2, m_particleSystemList := some p })

/-- `b2LiquidWorld::DestroyParticleSystem`. -/
def DestroyParticleSystem (assertsEnabled : Bool) (b2World_IsLocked : b2WorldId → Bool)
    (w : b2LiquidWorld) (p : Ptr) : Except Fault b2LiquidWorld :=
  match b2Assert assertsEnabled (w.m_particleSystemList != none) with
  | .error e => .error e
  | .ok () =>
  match b2Assert assertsEnabled (IsLocked b2World_IsLocked w == false) with
  | .error e => .error e
  | .ok () =>
    if IsLocked b2World_IsLocked w then
      .ok w
    else
      -- if (p->m_prev) p->m_prev->m_next = p->m_next;
      match load w.m_blockAllocator p with
      | .error e => .error e
      | .ok n0 =>
      match (match n0.m_prev with
        | some q => storeNext w.m_blockAllocator q n0.m_next
        | none => .ok w.m_blockAllocator) with
      | .error e => .error e
      | .ok heap1 =>
      -- if (p->m_next) p->m_next->m_prev = p->m_prev;
      match load heap1 p with
      | .error e => .error e
      | .ok n1 =>
      match (match n1.m_next with
        | some r => storePrev heap1 r n1.m_prev
        | none => .ok heap1) with
      | .error e => .error e
      | .ok heap2 =>
      -- if (p == m_particleSystemList) m_particleSystemList = p->m_next;
      match load heap2 p with
      | .error e => .error e
      | .ok n2 =>
        let head := if some p = w.m_particleSystemList then n2.m_next else w.m_particleSystemList
        -- p->~b2ParticleSystem(); m_blockAllocator.Free(p, ...);
        .ok { w with m_blockAllocator := Function.update heap2 p none, m_particleSystemList := head }

/-- Loop of `b2LiquidWorld::OnStep`: walks `p = p->GetNext()` from `cur` until `NULL` and
records each `p->Solve(step)` call. `GetNext` returns `m_next`. `Solve` is the particle solver's
black box working on the system's own buffers; it is recorded as an event and taken not to
touch the list links. `fuel` bounds the number of iterations; `none` means the bound was
reached or a pointer was invalid. -/
def solveLoop {F : Type} (heap : Heap) (step : b2TimeStep F) :
    Nat → Option Ptr → Option (List (Ptr × b2TimeStep F))
  | _, none => some []
  | 0, some _ => none
  | fuel + 1, some p =>
    match heap p with
    | none => none
    | some n => (solveLoop heap step fuel n.m_next).map (fun calls => (p, step) :: calls)

/-- `b2LiquidWorld::OnStep`: the sequence of `Solve` calls made and the state afterwards.
`Solve` is the particle solver's entry point; the driver writes no member of the registry. -/
def OnStep {F : Type} [Zero F] (fuel : Nat) (w : b2LiquidWorld) (dt invDT : F) :
    Option (List (Ptr × b2TimeStep F) × b2LiquidWorld) :=
  let step : b2TimeStep F :=
    { dt := dt, inv_dt := invDT, dtRatio := 0, particleIterations := 1, warmStarting := false }
  (solveLoop w.m_blockAllocator step fuel w.m_particleSystemList).map (fun calls => (calls, w))

/-- `LiquidFunStep`: the callback handed to the rigid-body world; `context` is the registry. -/
def LiquidFunStep {F : Type} [Zero F] (fuel : Nat) (dt invDT : F) (context : b2LiquidWorld) :
    Option (List (Ptr × b2TimeStep F) × b2LiquidWorld) :=
  OnStep fuel context dt invDT

/-! ## Specification vocabulary for the registry -/

/-- Doubly linked segment: starting at `cur`, whose predecessor pointer must be `prev`, the
`m_next` chain visits exactly the addresses of the list, every `m_prev` points to the
element before, and the last element's `m_next` is `stop`. -/
def Seg (heap : Heap) : Option Ptr → Option Ptr → List Ptr → Option Ptr → Prop
  | _, cur, [], stop => cur = stop
  | prev, cur, p :: L, stop =>
    cur = some p ∧ ∃ n, heap p = some n ∧ n.m_prev = prev ∧ Seg heap (some p) n.m_next L stop

/-- The active set of `w` is `L`: the list hanging off `m_particleSystemList` is a well formed
doubly linked list ending in `NULL`, the head has no predecessor, and its members in order are `L`. -/
def ActiveSet (w : b2LiquidWorld) (L : List Ptr) : Prop :=
  Seg w.m_blockAllocator none w.m_particleSystemList L none

/-- Addresses reached from `cur` by following `m_next`, in order; `none` if `fuel` links do
not reach `NULL` or a pointer is invalid. -/
def reach (heap : Heap) : Nat → Option Ptr → Option (List Ptr)
  | _, none => some []
  | 0, some _ => none
  | fuel + 1, some p =>
    match heap p with
    | none => none
    | some n => (reach heap fuel n.m_next).map (fun l => p :: l)

/-- Calls made on a registry. -/
inductive Op where
  | create (mem : Ptr)
  | destroy (p : Ptr)
  deriving DecidableEq, Repr

/-- One call on the registry, keeping the state only. -/
def applyOp (assertsEnabled : Bool) (b2World_IsLocked : b2WorldId → Bool) (w : b2LiquidWorld) :
    Op → Except Fault b2LiquidWorld
  | .create mem => (CreateParticleSystem assertsEnabled b2World_IsLocked w mem).map Prod.snd
  | .destroy p => DestroyParticleSystem assertsEnabled b2World_IsLocked w p

/-- A sequence of calls, left to right. -/
def runOps (assertsEnabled : Bool) (b2World_IsLocked : b2WorldId → Bool) :
    b2LiquidWorld → List Op → Except Fault b2LiquidWorld
  | w, [] => .ok w
  | w, op :: ops =>
    match applyOp assertsEnabled b2World_IsLocked w op with
    | .error e => .error e
    | .ok w1 => runOps assertsEnabled b2World_IsLocked w1 ops

/-- Bookkeeping of one call: a created system becomes live, a destroyed one stops being live. -/
def liveStep (live : Ptr → Bool) : Op → Ptr → Bool
  | .create mem => Function.update live mem true
  | .destroy p => Function.update live p false

/-- Systems created and not yet destroyed after the calls `ops`, starting from `live`. -/
def liveAfter (live : Ptr → Bool) (ops : List Op) : Ptr → Bool :=
  ops.foldl liveStep live

/-- The calls respect the registry's contract: every create yields a system that is not live
at that moment, every destroy names a system that is live at that moment. -/
def validOps (live : Ptr → Bool) : List Op → Bool
  | [] => true
  | .create mem :: ops => !live mem && validOps (liveStep live (.create mem)) ops
  | .destroy p :: ops => live p && validOps (liveStep live (.destroy p)) ops

/-- Oracle of a rigid-body world that is not stepping. -/
def neverLocked : b2WorldId → Bool := fun _ => false

/-- Oracle of a rigid-body world in the middle of a step. -/
def alwaysLocked : b2WorldId → Bool := fun _ => true

/-- Registry after creating systems at addresses 1, 2, 3 in that order. -/
def world123 : b2LiquidWorld :=
  { m_worldId := ⟨1, 0⟩
    m_particleSystemList := some 3
    m_contactFilter := .b2_liquid_defaultFilter
    m_contactListener := none
    m_blockAllocator := fun x =>
      if x = 3 then some ⟨none, some 2⟩
      else if x = 2 then some ⟨some 3, some 1⟩
      else if x = 1 then some ⟨some 2, none⟩
      else none }

/-- Registry reached by creating systems at addresses 1, 2, 3 and then destroying the one
at address 2, computed by running the operations on a new registry. -/
def scenarioWorld : b2LiquidWorld :=
  match runOps true neverLocked (b2LiquidWorld.new ⟨1, 0⟩ none)
      [.create 1, .create 2, .create 3, .destroy 2] with
  | .ok w => w
  | .error _ => b2LiquidWorld.new ⟨1, 0⟩ none

/-- Predecessor pointer seen by whatever follows the segment `A`. -/
def lastOr (prev : Option Ptr) (A : List Ptr) : Option Ptr :=
  match A.getLast? with
  | some q => some q
  | none => prev

/-! ## liquid_world.cpp and liquid_callbacks.h: remaining members -/

/-- `operator<( b2ShapeId a, b2ShapeId b )`: compares `index1` only. -/
def operatorLt (a b : b2ShapeId) : Bool :=
  decide (a.index1 < b.index1)

/-- Default `b2ContactFilter::ShouldCollide(b2ParticleSystem*, int32, int32)`, defined inline in
`liquid_callbacks.h`: the three arguments are unused. -/
def ShouldCollideParticles (_particleSystem : Ptr) (_particleIndexA _particleIndexB : Int) : Bool :=
  true

/-- A contact filter object seen through its three virtual functions. -/
structure b2ContactFilter where
  shapeShape : b2ShapeId → b2ShapeId → Bool
  shapeParticle : b2ShapeId → Ptr → Int → Bool
  particleParticle : Ptr → Int → Int → Bool

/-- The file-level object `static b2ContactFilter b2_liquid_defaultFilter;`: an instance of the
base class itself, so each virtual function is the default implementation. -/
def b2_liquid_defaultFilter (b2Shape_GetFilter : b2ShapeId → b2Filter)
    (GetFilterData : Ptr → b2Filter) : b2ContactFilter :=
  { shapeShape := ShouldCollide b2Shape_GetFilter
    shapeParticle := ShouldCollideParticle b2Shape_GetFilter GetFilterData
    particleParticle := ShouldCollideParticles }

/-- Object behind `m_contactFilter`; `userFilters` gives the objects supplied by callers. -/
def ContactFilterRef.target (b2Shape_GetFilter : b2ShapeId → b2Filter)
    (GetFilterData : Ptr → b2Filter) (userFilters : Ptr → b2ContactFilter) :
    ContactFilterRef → b2ContactFilter
  | .b2_liquid_defaultFilter => LiquidFun.b2_liquid_defaultFilter b2Shape_GetFilter GetFilterData
  | .custom addr => userFilters addr

/-- `b2LiquidWorld::SetContactListener`: one assignment, no lock query, no validation. -/
def SetContactListener (w : b2LiquidWorld) (listener : Option Ptr) : b2LiquidWorld :=
  { w with m_contactListener := listener }

/-- C1: two shapes sharing one nonzero group collide exactly when that group is positive,
whatever their category and mask bits are. -/
theorem ShouldCollide_same_group (b2Shape_GetFilter : b2ShapeId → b2Filter) (shapeA shapeB : b2ShapeId)
    (hsame : (b2Shape_GetFilter shapeA).groupIndex = (b2Shape_GetFilter shapeB).groupIndex)
    (hnz : (b2Shape_GetFilter shapeA).groupIndex ≠ 0) :
    ShouldCollide b2Shape_GetFilter shapeA shapeB
      = decide ((b2Shape_GetFilter shapeA).groupIndex > 0) := by
  simp [ShouldCollide, hsame.symm, hnz]

/-- Witness for C1: group 3 on both shapes collides although the masks exclude the pair,
checked through the general statement. -/
theorem ShouldCollide_same_group_witness :
    ShouldCollide (twoShapeFilters ⟨1, 0, 3⟩ ⟨2, 0, 3⟩) ⟨1, 0, 0⟩ ⟨2, 0, 0⟩ = true
    ∧ ShouldCollide (twoShapeFilters ⟨1, 3, -5⟩ ⟨2, 3, -5⟩) ⟨1, 0, 0⟩ ⟨2, 0, 0⟩ = false :=
  ⟨ShouldCollide_same_group (twoShapeFilters ⟨1, 0, 3⟩ ⟨2, 0, 3⟩) ⟨1, 0, 0⟩ ⟨2, 0, 0⟩
      (by decide) (by decide),
   ShouldCollide_same_group (twoShapeFilters ⟨1, 3, -5⟩ ⟨2, 3, -5⟩) ⟨1, 0, 0⟩ ⟨2, 0, 0⟩
      (by decide) (by decide)⟩

/-- C2: when the groups differ or are both zero, the shapes collide exactly when each mask
meets the other category. -/
theorem ShouldCollide_mask_test (b2Shape_GetFilter : b2ShapeId → b2Filter) (shapeA shapeB : b2ShapeId)
    (hgrp : (b2Shape_GetFilter shapeA).groupIndex ≠ (b2Shape_GetFilter shapeB).groupIndex
      ∨ ((b2Shape_GetFilter shapeA).groupIndex = 0 ∧ (b2Shape_GetFilter shapeB).groupIndex = 0)) :
    (ShouldCollide b2Shape_GetFilter shapeA shapeB = true ↔
      ((b2Shape_GetFilter shapeA).maskBits &&& (b2Shape_GetFilter shapeB).categoryBits) ≠ 0
      ∧ ((b2Shape_GetFilter shapeB).maskBits &&& (b2Shape_GetFilter shapeA).categoryBits) ≠ 0) := by
  have hcond : ¬ ((b2Shape_GetFilter shapeA).groupIndex = (b2Shape_GetFilter shapeB).groupIndex
      ∧ (b2Shape_GetFilter shapeA).groupIndex ≠ 0) := by
    rintro ⟨h1, h2⟩
    rcases hgrp with h | ⟨h, _⟩
    · exact h h1
    · exact h2 h
  have hcomm : (b2Shape_GetFilter shapeA).categoryBits &&& (b2Shape_GetFilter shapeB).maskBits
      = (b2Shape_GetFilter shapeB).maskBits &&& (b2Shape_GetFilter shapeA).categoryBits :=
    Nat.land_comm _ _
  simp only [ShouldCollide, if_neg hcond, hcomm, Bool.and_eq_true, decide_eq_true_eq]

/-- Witness for C2: groups 3 and -5 fall through to the mask test, and group 0 on both with
`A.mask & B.category = 0` does not collide. -/
theorem ShouldCollide_mask_test_witness :
    (ShouldCollide (twoShapeFilters ⟨1, 2, 3⟩ ⟨2, 1, -5⟩) ⟨1, 0, 0⟩ ⟨2, 0, 0⟩ = true ↔
      ((2 : Nat) &&& 2) ≠ 0 ∧ ((1 : Nat) &&& 1) ≠ 0)
    ∧ ¬ (ShouldCollide (twoShapeFilters ⟨1, 4, 0⟩ ⟨2, 1, 0⟩) ⟨1, 0, 0⟩ ⟨2, 0, 0⟩ = true) :=
  ⟨ShouldCollide_mask_test (twoShapeFilters ⟨1, 2, 3⟩ ⟨2, 1, -5⟩) ⟨1, 0, 0⟩ ⟨2, 0, 0⟩
      (Or.inl (by decide)),
   fun h => ((ShouldCollide_mask_test (twoShapeFilters ⟨1, 4, 0⟩ ⟨2, 1, 0⟩) ⟨1, 0, 0⟩ ⟨2, 0, 0⟩
      (Or.inr ⟨by decide, by decide⟩)).mp h).1 (by decide)⟩

/-- C3: the default shape-shape decision does not depend on the order of its arguments. -/
theorem ShouldCollide_comm (b2Shape_GetFilter : b2ShapeId → b2Filter) (shapeA shapeB : b2ShapeId) :
    ShouldCollide b2Shape_GetFilter shapeA shapeB = ShouldCollide b2Shape_GetFilter shapeB shapeA := by
  unfold ShouldCollide
  by_cases h : (b2Shape_GetFilter shapeA).groupIndex = (b2Shape_GetFilter shapeB).groupIndex
  · by_cases hz : (b2Shape_GetFilter shapeA).groupIndex = 0
    · have hz2 : (b2Shape_GetFilter shapeB).groupIndex = 0 := h ▸ hz
      simp [hz, hz2, Nat.land_comm, Bool.and_comm]
    · have hz2 : (b2Shape_GetFilter shapeB).groupIndex ≠ 0 := h ▸ hz
      simp [h, hz2]
  · have h2 : ¬ (b2Shape_GetFilter shapeB).groupIndex = (b2Shape_GetFilter shapeA).groupIndex :=
      fun e => h e.symm
    simp [h, h2, Nat.land_comm, Bool.and_comm]

/-- C4: for every shape filter `F`, every particle-system filter `G` and every particle index,
the shape-versus-particle-system default returns what the shape-shape default returns on the
two descriptors `(F, G)` (group rule first, then the symmetric mask test), and its result does
not depend on the particle index. -/
theorem ShouldCollideParticle_eq_ShouldCollide (b2Shape_GetFilter : b2ShapeId → b2Filter)
    (GetFilterData : Ptr → b2Filter) (fixture : b2ShapeId) (particleSystem : Ptr)
    (particleIndex : Int) :
    ShouldCollideParticle b2Shape_GetFilter GetFilterData fixture particleSystem particleIndex
        = ShouldCollide
            (twoShapeFilters (b2Shape_GetFilter fixture) (GetFilterData particleSystem))
            ⟨1, 0, 0⟩ ⟨2, 0, 0⟩
    ∧ ∀ otherIndex : Int,
        ShouldCollideParticle b2Shape_GetFilter GetFilterData fixture particleSystem otherIndex
          = ShouldCollideParticle b2Shape_GetFilter GetFilterData fixture particleSystem particleIndex := by
  refine ⟨?_, fun _ => rfl⟩
  simp [ShouldCollideParticle, ShouldCollide, twoShapeFilters]

/-! ## Lemmas on doubly linked segments -/

theorem lastOr_nil (prev : Option Ptr) : lastOr prev [] = prev := rfl

theorem lastOr_cons (prev : Option Ptr) (a : Ptr) (A : List Ptr) :
    lastOr prev (a :: A) = lastOr (some a) A := by
  cases A with
  | nil => rfl
  | cons b A =>
    simp only [lastOr, List.getLast?_cons_cons]
    cases h : (b :: A).getLast? with
    | some q => rfl
    | none => simp at h

theorem Seg_congr (heap heap2 : Heap) (L : List Ptr) :
    ∀ (prev cur stop : Option Ptr), (∀ x ∈ L, heap2 x = heap x) →
      Seg heap prev cur L stop → Seg heap2 prev cur L stop := by
  induction L with
  | nil => intro prev cur stop _ h; exact h
  | cons p L ih =>
    intro prev cur stop hx h
    obtain ⟨hc, n, hn, hp, hrest⟩ := h
    refine ⟨hc, n, ?_, hp, ih _ _ _ (fun x hxL => hx x (List.mem_cons_of_mem _ hxL)) hrest⟩
    rw [hx p (List.mem_cons_self _ _)]; exact hn

theorem Seg_append (heap : Heap) (A B : List Ptr) :
    ∀ (prev cur stop : Option Ptr),
      Seg heap prev cur (A ++ B) stop ↔
        ∃ mid, Seg heap prev cur A mid ∧ Seg heap (lastOr prev A) mid B stop := by
  induction A with
  | nil =>
    intro prev cur stop
    constructor
    · intro h; exact ⟨cur, rfl, h⟩
    · rintro ⟨mid, hm, h⟩
      have : cur = mid := hm
      subst this; exact h
  | cons a A ih =>
    intro prev cur stop
    constructor
    · rintro ⟨hc, n, hn, hp, hrest⟩
      obtain ⟨mid, h1, h2⟩ := (ih _ _ _).mp hrest
      exact ⟨mid, ⟨hc, n, hn, hp, h1⟩, by rw [lastOr_cons]; exact h2⟩
    · rintro ⟨mid, ⟨hc, n, hn, hp, h1⟩, h2⟩
      rw [lastOr_cons] at h2
      exact ⟨hc, n, hn, hp, (ih _ _ _).mpr ⟨mid, h1, h2⟩⟩

theorem Seg_functional (heap : Heap) (L1 : List Ptr) :
    ∀ (L2 : List Ptr) (prev cur : Option Ptr),
      Seg heap prev cur L1 none → Seg heap prev cur L2 none → L1 = L2 := by
  induction L1 with
  | nil =>
    intro L2 prev cur h1 h2
    cases L2 with
    | nil => rfl
    | cons q L2 =>
      have e1 : cur = none := h1
      have e2 : cur = some q := h2.1
      rw [e1] at e2; cases e2
  | cons p L1 ih =>
    intro L2 prev cur h1 h2
    obtain ⟨hc, n, hn, _, hrest⟩ := h1
    cases L2 with
    | nil =>
      have e2 : cur = none := h2
      rw [e2] at hc; cases hc
    | cons q L2 =>
      obtain ⟨hc2, n2, hn2, _, hrest2⟩ := h2
      have hpq : p = q := by rw [hc] at hc2; exact Option.some.inj hc2
      subst hpq
      have hnn : n = n2 := by rw [hn] at hn2; exact Option.some.inj hn2
      subst hnn
      rw [ih L2 _ _ hrest hrest2]

theorem Seg_nodup (heap : Heap) (L : List Ptr) :
    ∀ (prev cur : Option Ptr), Seg heap prev cur L none → L.Nodup := by
  induction L with
  | nil => intro _ _ _; exact List.nodup_nil
  | cons p L ih =>
    intro prev cur h
    obtain ⟨_, n, hn, _, hrest⟩ := h
    refine List.nodup_cons.mpr ⟨?_, ih _ _ hrest⟩
    intro hmem
    obtain ⟨A, B, hAB⟩ := List.append_of_mem hmem
    rw [hAB] at hrest
    obtain ⟨mid, _, h2⟩ := (Seg_append heap A (p :: B) _ _ _).mp hrest
    obtain ⟨_, n2, hn2, _, hB⟩ := h2
    have hnn : n2 = n := by rw [hn] at hn2; exact (Option.some.inj hn2).symm
    subst hnn
    have hEq := Seg_functional heap B (A ++ p :: B) _ _ hB hrest
    have hlen := congrArg List.length hEq
    simp at hlen
    omega

theorem reach_of_Seg (heap : Heap) (L : List Ptr) :
    ∀ (prev cur : Option Ptr) (fuel : Nat), Seg heap prev cur L none → L.length ≤ fuel →
      reach heap fuel cur = some L := by
  induction L with
  | nil =>
    intro prev cur fuel h _
    have e : cur = none := h
    subst e
    cases fuel <;> rfl
  | cons p L ih =>
    intro prev cur fuel h hf
    obtain ⟨hc, n, hn, _, hrest⟩ := h
    subst hc
    cases fuel with
    | zero => simp at hf
    | succ fuel =>
      have hf2 : L.length ≤ fuel := by simpa using hf
      simp [reach, hn, ih _ _ fuel hrest hf2]

theorem solveLoop_of_Seg {F : Type} (heap : Heap) (step : b2TimeStep F) (L : List Ptr) :
    ∀ (prev cur : Option Ptr) (fuel : Nat), Seg heap prev cur L none → L.length ≤ fuel →
      solveLoop heap step fuel cur = some (L.map (fun p => (p, step))) := by
  induction L with
  | nil =>
    intro prev cur fuel h _
    have e : cur = none := h
    subst e
    cases fuel <;> rfl
  | cons p L ih =>
    intro prev cur fuel h hf
    obtain ⟨hc, n, hn, _, hrest⟩ := h
    subst hc
    cases fuel with
    | zero => simp at hf
    | succ fuel =>
      have hf2 : L.length ≤ fuel := by simpa using hf
      simp [solveLoop, hn, ih _ _ fuel hrest hf2]


theorem Seg_head_mem (heap : Heap) (prev stop : Option Ptr) (r : Ptr) (B : List Ptr)
    (h : Seg heap prev (some r) B stop) (hstop : stop ≠ some r) : r ∈ B := by
  cases B with
  | nil => exact absurd (Eq.symm h) hstop
  | cons b B =>
    have e : some r = some b := h.1
    rw [Option.some.inj e]; exact List.mem_cons_self _ _

/-- Re-pointing the predecessor link of the first element of a list. -/
theorem Seg_reprev (heap heap2 : Heap) (B : List Ptr) (old new nx : Option Ptr)
    (h : Seg heap old nx B none) (hnd : B.Nodup)
    (hhead : ∀ r nr, nx = some r → heap r = some nr →
      heap2 r = some { nr with m_prev := new })
    (hrest : ∀ x ∈ B, some x ≠ nx → heap2 x = heap x) : Seg heap2 new nx B none := by
  cases B with
  | nil => exact h
  | cons r B =>
    obtain ⟨hc, nr, hnr, _, hB⟩ := h
    have hr := hhead r nr hc hnr
    refine ⟨hc, _, hr, rfl, ?_⟩
    have hnotin : r ∉ B := (List.nodup_cons.mp hnd).1
    refine Seg_congr heap heap2 B _ _ _ (fun x hx => ?_) hB
    apply hrest x (List.mem_cons_of_mem _ hx)
    rw [hc]
    intro e
    exact hnotin (Option.some.inj e ▸ hx)

theorem b2Assert_true (assertsEnabled : Bool) : b2Assert assertsEnabled true = .ok () := by
  cases assertsEnabled <;> rfl

theorem some_bne_none (x : Ptr) : (some x != (none : Option Ptr)) = true := by
  cases h : (some x != (none : Option Ptr))
  · simp at h
  · rfl

/-- Effect of `CreateParticleSystem` on an unlocked registry whose active set is `L`, for
memory `mem` that is not an active system. -/
theorem Create_spec (assertsEnabled : Bool) (b2World_IsLocked : b2WorldId → Bool)
    (w : b2LiquidWorld) (mem : Ptr) (L : List Ptr)
    (hun : IsLocked b2World_IsLocked w = false) (hL : ActiveSet w L) (hfresh : mem ∉ L) :
    ∃ w2, CreateParticleSystem assertsEnabled b2World_IsLocked w mem = .ok (some mem, w2)
      ∧ ActiveSet w2 (mem :: L)
      ∧ w2.m_particleSystemList = some mem
      ∧ w2.m_blockAllocator mem = some ⟨none, w.m_particleSystemList⟩
      ∧ w2.m_worldId = w.m_worldId := by
  have hnd : L.Nodup := Seg_nodup _ L _ _ hL
  unfold ActiveSet at hL
  cases hh : w.m_particleSystemList with
  | none =>
    rw [hh] at hL
    have hLnil : L = [] := by
      cases L with
      | nil => rfl
      | cons b L => exact absurd hL.1 (by simp)
    subst hLnil
    refine ⟨{ w with
        m_blockAllocator := Function.update w.m_blockAllocator mem
          (some { m_prev := none, m_next := none })
        m_particleSystemList := some mem }, ?_, ?_, rfl, ?_, rfl⟩
    · simp [CreateParticleSystem, b2Assert_true, hun, hh]
    · exact ⟨rfl, _, Function.update_same _ _ _, rfl, rfl⟩
    · simp [Function.update_same]
  | some h =>
    rw [hh] at hL
    have hmemL : h ∈ L := Seg_head_mem _ _ _ _ _ hL (by simp)
    have hne : h ≠ mem := fun e => hfresh (e ▸ hmemL)
    cases L with
    | nil => cases hmemL
    | cons b L =>
      obtain ⟨hc, nh, hnh, hpv, hrest⟩ := hL
      have hb : h = b := Option.some.inj hc
      subst hb
      have hnotin : h ∉ L := (List.nodup_cons.mp hnd).1
      have hstore : storePrev (Function.update w.m_blockAllocator mem
          (some { m_prev := none, m_next := some h })) h (some mem)
          = .ok (Function.update (Function.update w.m_blockAllocator mem
              (some { m_prev := none, m_next := some h })) h
              (some { nh with m_prev := some mem })) := by
        simp [storePrev, Function.update_noteq hne, hnh]
      refine ⟨{ w with
          m_blockAllocator := Function.update (Function.update w.m_blockAllocator mem
            (some { m_prev := none, m_next := some h })) h (some { nh with m_prev := some mem })
          m_particleSystemList := some mem }, ?_, ?_, rfl, ?_, rfl⟩
      · simp [CreateParticleSystem, b2Assert_true, hun, hh, hstore]
      · refine ⟨rfl, ⟨none, some h⟩, ?_, rfl, rfl, _, Function.update_same _ _ _, rfl, ?_⟩
        · dsimp only
          rw [Function.update_noteq (Ne.symm hne), Function.update_same]
        · refine Seg_congr _ _ L _ _ _ (fun x hx => ?_) hrest
          have hx1 : x ≠ h := fun e => hnotin (e ▸ hx)
          have hx2 : x ≠ mem := fun e => hfresh (e ▸ List.mem_cons_of_mem _ hx)
          dsimp only
          rw [Function.update_noteq hx1, Function.update_noteq hx2]
      · show Function.update _ h _ mem = _
        rw [Function.update_noteq (Ne.symm hne), Function.update_same]

/-- Effect of `DestroyParticleSystem` on an unlocked registry whose active set is
`A ++ p :: B`: the call returns, the active set becomes `A ++ B`, and `p` is released. -/
theorem Destroy_spec (assertsEnabled : Bool) (b2World_IsLocked : b2WorldId → Bool)
    (w : b2LiquidWorld) (p : Ptr) (A B : List Ptr)
    (hun : IsLocked b2World_IsLocked w = false) (hL : ActiveSet w (A ++ p :: B)) :
    ∃ w2, DestroyParticleSystem assertsEnabled b2World_IsLocked w p = .ok w2
      ∧ ActiveSet w2 (A ++ B)
      ∧ w2.m_blockAllocator p = none
      ∧ w2.m_worldId = w.m_worldId := by
  have hnd : (A ++ p :: B).Nodup := Seg_nodup _ _ _ _ hL
  unfold ActiveSet at hL
  rcases List.eq_nil_or_concat A with hA | ⟨A0, q, hA⟩
  · -- `p` is the head
    subst hA
    simp only [List.nil_append] at hL hnd ⊢
    obtain ⟨hc, n, hn, hpv, hB⟩ := hL
    have hpB : p ∉ B := (List.nodup_cons.mp hnd).1
    have hBnd : B.Nodup := (List.nodup_cons.mp hnd).2
    cases hnx : n.m_next with
    | none =>
      rw [hnx] at hB
      refine ⟨{ w with m_blockAllocator := Function.update w.m_blockAllocator p none
                       m_particleSystemList := none }, ?_, ?_, ?_, rfl⟩
      · simp [DestroyParticleSystem, b2Assert_true, some_bne_none, hun, hc, load, hn, hpv, hnx]
      · refine Seg_reprev _ _ B _ none none hB hBnd (fun r nr e _ => by cases e) ?_
        intro x hx _
        have hxp : x ≠ p := fun e => hpB (e ▸ hx)
        exact Function.update_noteq hxp _ _
      · exact Function.update_same _ _ _
    | some r =>
      rw [hnx] at hB
      have hrB : r ∈ B := Seg_head_mem _ _ _ _ _ hB (by simp)
      have hrp : r ≠ p := fun e => hpB (e ▸ hrB)
      have hpr : p ≠ r := fun e => hrp e.symm
      obtain ⟨nr, hnr⟩ : ∃ nr, w.m_blockAllocator r = some nr := by
        cases B with
        | nil => cases hrB
        | cons b B =>
          obtain ⟨hcb, nb, hnb, _, _⟩ := hB
          rw [Option.some.inj hcb]; exact ⟨nb, hnb⟩
      have hp2 : ∀ (hp0 : Heap) (v : Option b2ParticleSystem),
          Function.update hp0 r v p = hp0 p := by
        intro hp0 v; exact Function.update_noteq hpr _ _
      refine ⟨{ w with
          m_blockAllocator := Function.update
            (Function.update w.m_blockAllocator r (some { nr with m_prev := none })) p none
          m_particleSystemList := some r }, ?_, ?_, ?_, rfl⟩
      · simp [DestroyParticleSystem, b2Assert_true, some_bne_none, hun, hc, load, storePrev, hn, hpv, hnx,
          hnr, hp2]
      · refine Seg_reprev _ _ B _ none (some r) hB hBnd ?_ ?_
        · intro r2 nr2 e hnr2
          have e2 : r = r2 := Option.some.inj e
          subst e2
          have e3 : nr = nr2 := by rw [hnr] at hnr2; exact Option.some.inj hnr2
          subst e3
          dsimp only
          rw [Function.update_noteq hrp, Function.update_same]
        · intro x hx hxr
          have hxp : x ≠ p := fun e => hpB (e ▸ hx)
          have hxr2 : x ≠ r := fun e => hxr (congrArg some e)
          dsimp only
          rw [Function.update_noteq hxp, Function.update_noteq hxr2]
      · exact Function.update_same _ _ _
  · -- `p` has the predecessor `q`
    subst hA
    have hlist : A0.concat q ++ p :: B = A0 ++ q :: p :: B := by simp
    rw [hlist] at hL hnd
    have hgoal : A0.concat q ++ B = A0 ++ q :: B := by simp
    rw [hgoal]
    obtain ⟨mid, hA0, h2⟩ := (Seg_append _ A0 (q :: p :: B) _ _ _).mp hL
    obtain ⟨hmid, nq, hnq, hqpv, h3⟩ := h2
    obtain ⟨hqn, n, hn, hpv, hB⟩ := h3
    have hnd2 : (q :: p :: B).Nodup := (List.nodup_append.mp hnd).2.1
    have hdisj : ∀ x, x ∈ A0 → x ∉ q :: p :: B := fun x hx hx2 =>
      (List.nodup_append.mp hnd).2.2 hx hx2
    have hqpB : q ∉ p :: B := (List.nodup_cons.mp hnd2).1
    have hpB : p ∉ B := (List.nodup_cons.mp (List.nodup_cons.mp hnd2).2).1
    have hBnd : B.Nodup := (List.nodup_cons.mp (List.nodup_cons.mp hnd2).2).2
    have hqp : q ≠ p := fun e => hqpB (e ▸ List.mem_cons_self _ _)
    have hpq : p ≠ q := fun e => hqp e.symm
    have hqB : q ∉ B := fun hx => hqpB (List.mem_cons_of_mem _ hx)
    obtain ⟨x0, hhead, hx0p⟩ : ∃ x0, w.m_particleSystemList = some x0 ∧ p ≠ x0 := by
      cases A0 with
      | nil =>
        have e : w.m_particleSystemList = mid := hA0
        exact ⟨q, by rw [e, hmid], hpq⟩
      | cons a A0 =>
        refine ⟨a, hA0.1, fun e => ?_⟩
        exact hdisj a (List.mem_cons_self _ _)
          (e ▸ List.mem_cons_of_mem _ (List.mem_cons_self _ _))
    have hp1 : ∀ (v : Option b2ParticleSystem),
        Function.update w.m_blockAllocator q v p = w.m_blockAllocator p := by
      intro v; exact Function.update_noteq hpq _ _
    cases hnx : n.m_next with
    | none =>
      rw [hnx] at hB
      refine ⟨{ w with
          m_blockAllocator := Function.update
            (Function.update w.m_blockAllocator q (some { nq with m_next := none })) p none }
          , ?_, ?_, ?_, rfl⟩
      · simp [DestroyParticleSystem, b2Assert_true, some_bne_none, hun, hhead, load, storeNext, hn, hpv, hnx,
          hnq, hp1, hx0p]
      · refine (Seg_append _ A0 (q :: B) _ _ _).mpr ⟨some q, ?_, ?_⟩
        · rw [hmid] at hA0
          refine Seg_congr _ _ A0 _ _ _ (fun x hx => ?_) hA0
          have hxq : x ≠ q := fun e => hdisj x hx (e ▸ List.mem_cons_self _ _)
          have hxp : x ≠ p := fun e =>
            hdisj x hx (e ▸ List.mem_cons_of_mem _ (List.mem_cons_self _ _))
          dsimp only
          rw [Function.update_noteq hxp, Function.update_noteq hxq]
        · refine ⟨rfl, { nq with m_next := none }, ?_, hqpv, ?_⟩
          · dsimp only
            rw [Function.update_noteq hqp, Function.update_same]
          · refine Seg_reprev _ _ B _ (some q) none hB hBnd (fun r nr e _ => by cases e) ?_
            intro x hx _
            have hxp : x ≠ p := fun e => hpB (e ▸ hx)
            have hxq : x ≠ q := fun e => hqB (e ▸ hx)
            dsimp only
            rw [Function.update_noteq hxp, Function.update_noteq hxq]
      · exact Function.update_same _ _ _
    | some r =>
      rw [hnx] at hB
      have hrB : r ∈ B := Seg_head_mem _ _ _ _ _ hB (by simp)
      have hrp : r ≠ p := fun e => hpB (e ▸ hrB)
      have hpr : p ≠ r := fun e => hrp e.symm
      have hrq : r ≠ q := fun e => hqB (e ▸ hrB)
      obtain ⟨nr, hnr⟩ : ∃ nr, w.m_blockAllocator r = some nr := by
        cases B with
        | nil => cases hrB
        | cons b B =>
          obtain ⟨hcb, nb, hnb, _, _⟩ := hB
          rw [Option.some.inj hcb]; exact ⟨nb, hnb⟩
      have hr1 : ∀ (v : Option b2ParticleSystem),
          Function.update w.m_blockAllocator q v r = w.m_blockAllocator r := by
        intro v; exact Function.update_noteq hrq _ _
      have hp2 : ∀ (hp0 : Heap) (v : Option b2ParticleSystem),
          Function.update hp0 r v p = hp0 p := by
        intro hp0 v; exact Function.update_noteq hpr _ _
      refine ⟨{ w with
          m_blockAllocator := Function.update (Function.update
            (Function.update w.m_blockAllocator q (some { nq with m_next := some r }))
              r (some { nr with m_prev := some q })) p none }
          , ?_, ?_, ?_, rfl⟩
      · simp [DestroyParticleSystem, b2Assert_true, some_bne_none, hun, hhead, load, storeNext, storePrev, hn,
          hpv, hnx, hnq, hnr, hp1, hp2, hr1, hx0p]
      · refine (Seg_append _ A0 (q :: B) _ _ _).mpr ⟨some q, ?_, ?_⟩
        · rw [hmid] at hA0
          refine Seg_congr _ _ A0 _ _ _ (fun x hx => ?_) hA0
          have hxq : x ≠ q := fun e => hdisj x hx (e ▸ List.mem_cons_self _ _)
          have hxp : x ≠ p := fun e =>
            hdisj x hx (e ▸ List.mem_cons_of_mem _ (List.mem_cons_self _ _))
          have hxr : x ≠ r := fun e =>
            hdisj x hx (e ▸ List.mem_cons_of_mem _ (List.mem_cons_of_mem _ hrB))
          dsimp only
          rw [Function.update_noteq hxp, Function.update_noteq hxr, Function.update_noteq hxq]
        · refine ⟨rfl, { nq with m_next := some r }, ?_, hqpv, ?_⟩
          · dsimp only
            rw [Function.update_noteq hqp, Function.update_noteq (Ne.symm hrq),
              Function.update_same]
          · refine Seg_reprev _ _ B _ (some q) (some r) hB hBnd ?_ ?_
            · intro r2 nr2 e hnr2
              have e2 : r = r2 := Option.some.inj e
              subst e2
              have e3 : nr = nr2 := by rw [hnr] at hnr2; exact Option.some.inj hnr2
              subst e3
              dsimp only
              rw [Function.update_noteq hrp, Function.update_same]
            · intro x hx hxr
              have hxp : x ≠ p := fun e => hpB (e ▸ hx)
              have hxq : x ≠ q := fun e => hqB (e ▸ hx)
              have hxr2 : x ≠ r := fun e => hxr (congrArg some e)
              dsimp only
              rw [Function.update_noteq hxp, Function.update_noteq hxr2,
                Function.update_noteq hxq]
      · exact Function.update_same _ _ _

theorem erase_mid (p : Ptr) (A B : List Ptr) (hA : p ∉ A) :
    (A ++ p :: B).erase p = A ++ B := by
  rw [List.erase_append_right _ hA, List.erase_cons_head]

/-- Invariant carried along a valid sequence of calls on an unlocked registry. -/
theorem runOps_spec (assertsEnabled : Bool) (b2World_IsLocked : b2WorldId → Bool) :
    ∀ (ops : List Op) (w : b2LiquidWorld) (L : List Ptr) (live : Ptr → Bool),
      IsLocked b2World_IsLocked w = false → ActiveSet w L → (∀ x, x ∈ L ↔ live x = true) →
      validOps live ops = true →
      ∃ w2 L2, runOps assertsEnabled b2World_IsLocked w ops = .ok w2 ∧ ActiveSet w2 L2
        ∧ (∀ x, x ∈ L2 ↔ liveAfter live ops x = true) := by
  intro ops
  induction ops with
  | nil =>
    intro w L live _ hL hlive _
    exact ⟨w, L, rfl, hL, hlive⟩
  | cons op ops ih =>
    intro w L live hun hL hlive hvalid
    have hnd : L.Nodup := Seg_nodup _ L _ _ hL
    cases op with
    | create mem =>
      simp only [validOps, Bool.and_eq_true, Bool.not_eq_true'] at hvalid
      have hfresh : mem ∉ L := fun hm => by
        have := (hlive mem).mp hm
        rw [hvalid.1] at this; cases this
      obtain ⟨w1, hrun, hL1, _, _, hid⟩ :=
        Create_spec assertsEnabled b2World_IsLocked w mem L hun hL hfresh
      have hun1 : IsLocked b2World_IsLocked w1 = false := by
        unfold IsLocked at hun ⊢; rw [hid]; exact hun
      have hlive1 : ∀ x, x ∈ mem :: L ↔ liveStep live (.create mem) x = true := by
        intro x
        by_cases hx : x = mem
        · subst hx; simp [liveStep]
        · simp [liveStep, Function.update_noteq hx, hx, hlive x]
      obtain ⟨w2, L2, hrun2, hL2, hlive2⟩ := ih w1 (mem :: L) _ hun1 hL1 hlive1 hvalid.2
      refine ⟨w2, L2, ?_, hL2, hlive2⟩
      simp only [runOps, applyOp, hrun, Except.map]
      exact hrun2
    | destroy p =>
      simp only [validOps, Bool.and_eq_true] at hvalid
      have hmem : p ∈ L := (hlive p).mpr hvalid.1
      obtain ⟨A, B, hAB⟩ := List.append_of_mem hmem
      subst hAB
      obtain ⟨w1, hrun, hL1, _, hid⟩ :=
        Destroy_spec assertsEnabled b2World_IsLocked w p A B hun hL
      have hun1 : IsLocked b2World_IsLocked w1 = false := by
        unfold IsLocked at hun ⊢; rw [hid]; exact hun
      have hpA : p ∉ A := fun h =>
        (List.nodup_append.mp hnd).2.2 h (List.mem_cons_self _ _)
      have hpB : p ∉ B := (List.nodup_cons.mp (List.nodup_append.mp hnd).2.1).1
      have hlive1 : ∀ x, x ∈ A ++ B ↔ liveStep live (.destroy p) x = true := by
        intro x
        by_cases hx : x = p
        · subst hx; simp [liveStep, hpA, hpB]
        · have := hlive x
          simp only [List.mem_append, List.mem_cons, hx, false_or] at this
          simp [liveStep, Function.update_noteq hx, this]
      obtain ⟨w2, L2, hrun2, hL2, hlive2⟩ := ih w1 (A ++ B) _ hun1 hL1 hlive1 hvalid.2
      refine ⟨w2, L2, ?_, hL2, hlive2⟩
      simp only [runOps, applyOp, hrun]
      exact hrun2

theorem ActiveSet_new (worldId : b2WorldId) (listener0 : Option Ptr) :
    ActiveSet (b2LiquidWorld.new worldId listener0) [] := rfl

theorem ActiveSet_world123 : ActiveSet world123 [3, 2, 1] :=
  ⟨rfl, ⟨none, some 2⟩, rfl, rfl, rfl, ⟨some 3, some 1⟩, rfl, rfl, rfl, ⟨some 2, none⟩,
    rfl, rfl, rfl⟩

theorem ActiveSet_scenarioWorld : ActiveSet scenarioWorld [3, 1] :=
  ⟨rfl, ⟨none, some 1⟩, rfl, rfl, rfl, ⟨some 3, none⟩, rfl, rfl, rfl⟩

/-! ## Theorems: particle-system registry -/

/-- C5: starting from a new registry, after any sequence of create and destroy calls made while
unlocked (creates yield systems not currently live, destroys name live systems) every call
returns, the list reached from `m_particleSystemList` is a well formed list without repetition,
and its members are exactly the systems created and not yet destroyed. -/
theorem registry_membership_invariant (assertsEnabled : Bool)
    (b2World_IsLocked : b2WorldId → Bool) (worldId : b2WorldId) (listener0 : Option Ptr)
    (ops : List Op) (hunlocked : b2World_IsLocked worldId = false)
    (hvalid : validOps (fun _ => false) ops = true) :
    ∃ w L, runOps assertsEnabled b2World_IsLocked (b2LiquidWorld.new worldId listener0) ops = .ok w
      ∧ reach w.m_blockAllocator L.length w.m_particleSystemList = some L
      ∧ ActiveSet w L
      ∧ L.Nodup
      ∧ ∀ x, x ∈ L ↔ liveAfter (fun _ => false) ops x = true := by
  obtain ⟨w, L, hrun, hL, hlive⟩ :=
    runOps_spec assertsEnabled b2World_IsLocked ops (b2LiquidWorld.new worldId listener0) []
      (fun _ => false) hunlocked (ActiveSet_new worldId listener0) (by simp) hvalid
  exact ⟨w, L, hrun, reach_of_Seg _ L _ _ _ hL (Nat.le_refl _), hL, Seg_nodup _ L _ _ hL, hlive⟩

/-- Witness for C5: create 1, 2, 3, then destroy 2. -/
theorem registry_membership_invariant_witness :
    neverLocked ⟨1, 0⟩ = false
    ∧ validOps (fun _ => false) [.create 1, .create 2, .create 3, .destroy 2] = true
    ∧ ∃ w L, runOps true neverLocked (b2LiquidWorld.new ⟨1, 0⟩ none)
          [.create 1, .create 2, .create 3, .destroy 2] = .ok w
        ∧ reach w.m_blockAllocator L.length w.m_particleSystemList = some L
        ∧ ActiveSet w L
        ∧ L.Nodup
        ∧ ∀ x, x ∈ L ↔
            liveAfter (fun _ => false) [.create 1, .create 2, .create 3, .destroy 2] x = true :=
  ⟨rfl, by decide,
    registry_membership_invariant true neverLocked ⟨1, 0⟩ none
      [.create 1, .create 2, .create 3, .destroy 2] rfl (by decide)⟩

/-- C6, as the code has it: on a locked world `CreateParticleSystem` changes nothing; where
`b2Assert` expands to nothing it returns null with the registry as it was, and where
`b2Assert` is active the call stops at the failed assertion `IsLocked() == false`. -/
theorem Create_locked (assertsEnabled : Bool) (b2World_IsLocked : b2WorldId → Bool)
    (w : b2LiquidWorld) (mem : Ptr) (hlocked : IsLocked b2World_IsLocked w = true) :
    CreateParticleSystem assertsEnabled b2World_IsLocked w mem
      = if assertsEnabled then .error .assertFailed else .ok (none, w) := by
  cases assertsEnabled <;> simp [CreateParticleSystem, b2Assert, hlocked]

/-- Witness for C6 (amended): a locked registry holding three systems, assertions compiled out. -/
theorem Create_locked_witness :
    IsLocked alwaysLocked world123 = true
    ∧ CreateParticleSystem false alwaysLocked world123 4 = .ok (none, world123) :=
  ⟨rfl, Create_locked false alwaysLocked world123 4 rfl⟩

/-- Counterexample to C6 as stated: with assertions active a create on a locked world does
not return null, it fails the assertion. -/
theorem Create_locked_counterexample :
    IsLocked alwaysLocked world123 = true
    ∧ CreateParticleSystem true alwaysLocked world123 4 = .error .assertFailed
    ∧ CreateParticleSystem true alwaysLocked world123 4 ≠ .ok (none, world123) :=
  ⟨rfl, rfl, fun h => by cases h⟩

/-- C7: on an unlocked registry with active set `L`, `CreateParticleSystem` returns the new
system, which becomes the head with no predecessor and the old head as successor; the active
set afterwards is the new system followed by `L`. -/
theorem Create_inserts_at_head (assertsEnabled : Bool) (b2World_IsLocked : b2WorldId → Bool)
    (w : b2LiquidWorld) (mem : Ptr) (L : List Ptr)
    (hunlocked : IsLocked b2World_IsLocked w = false) (hL : ActiveSet w L) (hfresh : mem ∉ L) :
    ∃ w2, CreateParticleSystem assertsEnabled b2World_IsLocked w mem = .ok (some mem, w2)
      ∧ ActiveSet w2 (mem :: L)
      ∧ w2.m_particleSystemList = some mem
      ∧ w2.m_blockAllocator mem = some ⟨none, w.m_particleSystemList⟩ := by
  obtain ⟨w2, h1, h2, h3, h4, _⟩ :=
    Create_spec assertsEnabled b2World_IsLocked w mem L hunlocked hL hfresh
  exact ⟨w2, h1, h2, h3, h4⟩

/-- Witness for C7: a fourth system created on the registry holding 3, 2, 1. -/
theorem Create_inserts_at_head_witness :
    IsLocked neverLocked world123 = false ∧ ActiveSet world123 [3, 2, 1] ∧ 4 ∉ [3, 2, 1]
    ∧ ∃ w2, CreateParticleSystem true neverLocked world123 4 = .ok (some 4, w2)
      ∧ ActiveSet w2 [4, 3, 2, 1]
      ∧ w2.m_particleSystemList = some 4
      ∧ w2.m_blockAllocator 4 = some ⟨none, world123.m_particleSystemList⟩ :=
  ⟨rfl, ActiveSet_world123, by decide,
    Create_inserts_at_head true neverLocked world123 4 [3, 2, 1] rfl ActiveSet_world123
      (by decide)⟩

/-- C8: on an unlocked registry with active set `L`, destroying a member `p` returns, releases
`p`, and leaves `L` with `p` removed and the other members in their previous order. -/
theorem Destroy_removes_exactly (assertsEnabled : Bool) (b2World_IsLocked : b2WorldId → Bool)
    (w : b2LiquidWorld) (p : Ptr) (L : List Ptr)
    (hunlocked : IsLocked b2World_IsLocked w = false) (hL : ActiveSet w L) (hp : p ∈ L) :
    ∃ w2, DestroyParticleSystem assertsEnabled b2World_IsLocked w p = .ok w2
      ∧ ActiveSet w2 (L.erase p)
      ∧ p ∉ L.erase p
      ∧ w2.m_blockAllocator p = none := by
  have hnd : L.Nodup := Seg_nodup _ L _ _ hL
  obtain ⟨A, B, hAB⟩ := List.append_of_mem hp
  subst hAB
  have hpA : p ∉ A := fun h => (List.nodup_append.mp hnd).2.2 h (List.mem_cons_self _ _)
  obtain ⟨w2, h1, h2, h3, _⟩ :=
    Destroy_spec assertsEnabled b2World_IsLocked w p A B hunlocked hL
  have hpB : p ∉ B := (List.nodup_cons.mp (List.nodup_append.mp hnd).2.1).1
  rw [erase_mid p A B hpA]
  exact ⟨w2, h1, h2, by simp [hpA, hpB], h3⟩

/-- Witness for C8: systems 1, 2, 3 created in that order, then 2 destroyed. -/
theorem Destroy_removes_exactly_witness :
    IsLocked neverLocked world123 = false ∧ ActiveSet world123 [3, 2, 1] ∧ 2 ∈ [3, 2, 1]
    ∧ ∃ w2, DestroyParticleSystem true neverLocked world123 2 = .ok w2
      ∧ ActiveSet w2 ([3, 2, 1].erase 2)
      ∧ 2 ∉ [3, 2, 1].erase 2
      ∧ w2.m_blockAllocator 2 = none :=
  ⟨rfl, ActiveSet_world123, by decide,
    Destroy_removes_exactly true neverLocked world123 2 [3, 2, 1] rfl ActiveSet_world123
      (by decide)⟩

/-- C9: on a locked world `DestroyParticleSystem(p)` writes nothing. Where `b2Assert` expands
to nothing the call returns with the whole registry as it was: the head, every stored object,
hence the active set with its members and order, the links of `p` and `p` itself, which is not
released. Where `b2Assert` is active the call is stopped by an assertion, and both assertions
precede the first write. Whatever state the call returns is the state it was given. -/
theorem Destroy_locked (assertsEnabled : Bool) (b2World_IsLocked : b2WorldId → Bool)
    (w : b2LiquidWorld) (p : Ptr) (hlocked : IsLocked b2World_IsLocked w = true) :
    DestroyParticleSystem assertsEnabled b2World_IsLocked w p
        = (if assertsEnabled then .error .assertFailed else .ok w)
    ∧ ∀ w2, DestroyParticleSystem assertsEnabled b2World_IsLocked w p = .ok w2 →
        w2 = w
        ∧ w2.m_particleSystemList = w.m_particleSystemList
        ∧ w2.m_blockAllocator p = w.m_blockAllocator p
        ∧ ∀ L, ActiveSet w2 L ↔ ActiveSet w L := by
  have hval : DestroyParticleSystem assertsEnabled b2World_IsLocked w p
      = (if assertsEnabled then .error .assertFailed else .ok w) := by
    cases assertsEnabled
    · simp [DestroyParticleSystem, b2Assert, hlocked]
    · cases hh : w.m_particleSystemList <;>
        simp [DestroyParticleSystem, b2Assert, hlocked, hh]
  refine ⟨hval, fun w2 h2 => ?_⟩
  rw [hval] at h2
  cases assertsEnabled with
  | true => cases h2
  | false =>
    have e : w = w2 := by
      simp only [Bool.false_eq_true, if_false] at h2
      exact Except.ok.inj h2
    subst e
    exact ⟨rfl, rfl, rfl, fun _ => Iff.rfl⟩

/-- Witness for C9: a locked registry holding three systems, destroy of the middle one, with
assertions compiled out and with assertions active. -/
theorem Destroy_locked_witness :
    IsLocked alwaysLocked world123 = true
    ∧ (DestroyParticleSystem false alwaysLocked world123 2 = .ok world123
      ∧ ∀ w2, DestroyParticleSystem false alwaysLocked world123 2 = .ok w2 →
          w2 = world123
          ∧ w2.m_particleSystemList = world123.m_particleSystemList
          ∧ w2.m_blockAllocator 2 = world123.m_blockAllocator 2
          ∧ ∀ L, ActiveSet w2 L ↔ ActiveSet world123 L)
    ∧ DestroyParticleSystem true alwaysLocked world123 2 = .error .assertFailed :=
  ⟨rfl, Destroy_locked false alwaysLocked world123 2 rfl,
    (Destroy_locked true alwaysLocked world123 2 rfl).1⟩

/-- C10: on a registry with active set `L`, `OnStep` (given enough iterations for the list)
returns, calls `Solve` once per member of `L` in list order from the head and on nothing else,
each time with the time step `{dt, invDT, 0, 1, false}`, and leaves the registry as it was;
the callback `LiquidFunStep` is that same call. -/
theorem OnStep_solves_each_once {F : Type} [Zero F] (w : b2LiquidWorld) (L : List Ptr)
    (dt invDT : F) (fuel : Nat) (hL : ActiveSet w L) (hfuel : L.length ≤ fuel) :
    OnStep fuel w dt invDT
        = some (L.map (fun p => (p, (⟨dt, invDT, 0, 1, false⟩ : b2TimeStep F))), w)
    ∧ LiquidFunStep fuel dt invDT w = OnStep fuel w dt invDT
    ∧ L.Nodup := by
  refine ⟨?_, rfl, Seg_nodup _ L _ _ hL⟩
  simp only [OnStep, solveLoop_of_Seg _ _ L _ _ fuel hL hfuel, Option.map_some']

/-- Witness for C10: after creating 1, 2, 3 and destroying 2, a step solves 3, then 1. -/
theorem OnStep_solves_each_once_witness :
    ActiveSet scenarioWorld [3, 1] ∧ [3, 1].length ≤ 2
    ∧ OnStep 2 scenarioWorld (1 / 60 : ℚ) 60
        = some ([3, 1].map (fun p => (p, (⟨1 / 60, 60, 0, 1, false⟩ : b2TimeStep ℚ))),
            scenarioWorld)
    ∧ LiquidFunStep 2 (1 / 60 : ℚ) 60 scenarioWorld = OnStep 2 scenarioWorld (1 / 60 : ℚ) 60
    ∧ [3, 1].Nodup :=
  ⟨ActiveSet_scenarioWorld, by decide,
    OnStep_solves_each_once scenarioWorld [3, 1] (1 / 60 : ℚ) 60 2 ActiveSet_scenarioWorld
      (by decide)⟩


/-- C12: `SetContactListener(l)` makes `l` the listener, for null as for any other value, and
leaves the world reference, the collision filter, the list head and the stored objects as they
were, hence the active set; after two calls the listener is the last argument. The function
makes no lock query. -/
theorem SetContactListener_frame (w : b2LiquidWorld) (l l2 : Option Ptr) :
    (SetContactListener w l).m_contactListener = l
    ∧ (SetContactListener w none).m_contactListener = none
    ∧ (SetContactListener w l).m_worldId = w.m_worldId
    ∧ (SetContactListener w l).m_contactFilter = w.m_contactFilter
    ∧ (SetContactListener w l).m_particleSystemList = w.m_particleSystemList
    ∧ (SetContactListener w l).m_blockAllocator = w.m_blockAllocator
    ∧ (∀ L, ActiveSet (SetContactListener w l) L ↔ ActiveSet w L)
    ∧ (SetContactListener (SetContactListener w l) l2).m_contactListener = l2 :=
  ⟨rfl, rfl, rfl, rfl, rfl, rfl, fun _ => Iff.rfl, rfl⟩

/-- C13: a registry constructed on `worldId` references `worldId`, has an empty active set, and
its filter is `b2_liquid_defaultFilter`, whose shape-shape and shape-particle decisions are the
default group/mask algorithm and whose particle-particle decision is always true. -/
theorem new_registry_initial_state (worldId : b2WorldId) (listener0 : Option Ptr)
    (b2Shape_GetFilter : b2ShapeId → b2Filter) (GetFilterData : Ptr → b2Filter)
    (userFilters : Ptr → b2ContactFilter) :
    (b2LiquidWorld.new worldId listener0).m_worldId = worldId
    ∧ (b2LiquidWorld.new worldId listener0).m_particleSystemList = none
    ∧ ActiveSet (b2LiquidWorld.new worldId listener0) []
    ∧ (b2LiquidWorld.new worldId listener0).m_contactFilter = .b2_liquid_defaultFilter
    ∧ (∀ a b, (ContactFilterRef.target b2Shape_GetFilter GetFilterData userFilters
          (b2LiquidWorld.new worldId listener0).m_contactFilter).shapeShape a b
        = ShouldCollide b2Shape_GetFilter a b)
    ∧ (∀ a ps i, (ContactFilterRef.target b2Shape_GetFilter GetFilterData userFilters
          (b2LiquidWorld.new worldId listener0).m_contactFilter).shapeParticle a ps i
        = ShouldCollideParticle b2Shape_GetFilter GetFilterData a ps i)
    ∧ (∀ ps i j, (ContactFilterRef.target b2Shape_GetFilter GetFilterData userFilters
          (b2LiquidWorld.new worldId listener0).m_contactFilter).particleParticle ps i j
        = true) :=
  ⟨rfl, rfl, rfl, rfl, fun _ _ => rfl, fun _ _ _ => rfl, fun _ _ _ => rfl⟩

/-- C14, the code at a failing input: the constructor assigns no value to `m_contactListener`,
so a registry built where that member held the address 7 has the listener 7, not null. -/
theorem new_registry_listener_unassigned :
    (b2LiquidWorld.new ⟨1, 0⟩ (some 7)).m_contactListener = some 7
    ∧ (b2LiquidWorld.new ⟨1, 0⟩ (some 7)).m_contactListener ≠ none :=
  ⟨rfl, by decide⟩

/-- C15: `operator<` on shape handles is a strict weak ordering: irreflexive, asymmetric,
transitive, and with transitive incomparability. -/
theorem operatorLt_strict_weak_order :
    (∀ a, operatorLt a a = false)
    ∧ (∀ a b, operatorLt a b = true → operatorLt b a = false)
    ∧ (∀ a b c, operatorLt a b = true → operatorLt b c = true → operatorLt a c = true)
    ∧ (∀ a b c, (operatorLt a b = false ∧ operatorLt b a = false) →
        (operatorLt b c = false ∧ operatorLt c b = false) →
        (operatorLt a c = false ∧ operatorLt c a = false)) := by
  refine ⟨?_, ?_, ?_, ?_⟩
  · intro a; simp [operatorLt]
  · intro a b h
    simp only [operatorLt, decide_eq_true_eq, decide_eq_false_iff_not] at h ⊢
    omega
  · intro a b c h1 h2
    simp only [operatorLt, decide_eq_true_eq] at h1 h2 ⊢
    omega
  · intro a b c h1 h2
    simp only [operatorLt, decide_eq_false_iff_not] at h1 h2 ⊢
    omega

/-- Witness for C15: handles with `index1` 1, 2, 3 and two handles sharing `index1 = 2`. -/
theorem operatorLt_strict_weak_order_witness :
    operatorLt ⟨1, 0, 0⟩ ⟨3, 0, 0⟩ = true
    ∧ operatorLt ⟨2, 0, 0⟩ ⟨1, 0, 0⟩ = false
    ∧ (operatorLt ⟨2, 0, 0⟩ ⟨2, 7, 9⟩ = false ∧ operatorLt ⟨2, 7, 9⟩ ⟨2, 0, 0⟩ = false) :=
  ⟨operatorLt_strict_weak_order.2.2.1 ⟨1, 0, 0⟩ ⟨2, 0, 0⟩ ⟨3, 0, 0⟩ (by decide) (by decide),
   operatorLt_strict_weak_order.2.1 ⟨1, 0, 0⟩ ⟨2, 0, 0⟩ (by decide),
   operatorLt_strict_weak_order.2.2.2 ⟨2, 0, 0⟩ ⟨2, 1, 1⟩ ⟨2, 7, 9⟩
     ⟨by decide, by decide⟩ ⟨by decide, by decide⟩⟩

/-- C16: the default particle-particle filter returns true for every particle system and every
pair of indices, equal, negative or out of range included. -/
theorem ShouldCollideParticles_always (particleSystem : Ptr) (indexA indexB : Int) :
    ShouldCollideParticles particleSystem indexA indexB = true :=
  rfl

/-- C18: the newly constructed registry is well formed, and on a registry whose list is well
formed with members `L` a `CreateParticleSystem` (with memory that is not an active system) or
a `DestroyParticleSystem` of a member, in any lock state, either returns with a well formed
list (unchanged when locked, `mem :: L` respectively `L.erase p` when unlocked) or is stopped
by the active assertion on the lock before anything is written. -/
theorem wellformed_preserved (assertsEnabled : Bool) (b2World_IsLocked : b2WorldId → Bool)
    (w : b2LiquidWorld) (L : List Ptr) (hL : ActiveSet w L) :
    (∀ worldId listener0, ActiveSet (b2LiquidWorld.new worldId listener0) [])
    ∧ (∀ mem, mem ∉ L →
        (assertsEnabled = true ∧ IsLocked b2World_IsLocked w = true
          ∧ CreateParticleSystem assertsEnabled b2World_IsLocked w mem = .error .assertFailed)
        ∨ ∃ r w2, CreateParticleSystem assertsEnabled b2World_IsLocked w mem = .ok (r, w2)
            ∧ ActiveSet w2 (if IsLocked b2World_IsLocked w then L else mem :: L))
    ∧ (∀ p, p ∈ L →
        (assertsEnabled = true ∧ IsLocked b2World_IsLocked w = true
          ∧ DestroyParticleSystem assertsEnabled b2World_IsLocked w p = .error .assertFailed)
        ∨ ∃ w2, DestroyParticleSystem assertsEnabled b2World_IsLocked w p = .ok w2
            ∧ ActiveSet w2 (if IsLocked b2World_IsLocked w then L else L.erase p)) := by
  have hnd : L.Nodup := Seg_nodup _ L _ _ hL
  refine ⟨fun _ _ => rfl, ?_, ?_⟩
  · intro mem hfresh
    cases hlk : IsLocked b2World_IsLocked w with
    | true =>
      cases assertsEnabled with
      | true =>
        left
        exact ⟨rfl, rfl, by simp [CreateParticleSystem, b2Assert, hlk]⟩
      | false =>
        right
        exact ⟨none, w, by simp [CreateParticleSystem, b2Assert, hlk], by simpa using hL⟩
    | false =>
      right
      obtain ⟨w2, h1, h2, _⟩ :=
        Create_spec assertsEnabled b2World_IsLocked w mem L hlk hL hfresh
      exact ⟨some mem, w2, h1, by simpa using h2⟩
  · intro p hp
    cases hlk : IsLocked b2World_IsLocked w with
    | true =>
      cases assertsEnabled with
      | true =>
        left
        refine ⟨rfl, rfl, ?_⟩
        cases hh : w.m_particleSystemList <;>
          simp [DestroyParticleSystem, b2Assert, hlk, hh]
      | false =>
        right
        exact ⟨w, by simp [DestroyParticleSystem, b2Assert, hlk], by simpa using hL⟩
    | false =>
      right
      obtain ⟨A, B, hAB⟩ := List.append_of_mem hp
      subst hAB
      have hpA : p ∉ A := fun h => (List.nodup_append.mp hnd).2.2 h (List.mem_cons_self _ _)
      obtain ⟨w2, h1, h2, _⟩ := Destroy_spec assertsEnabled b2World_IsLocked w p A B hlk hL
      refine ⟨w2, h1, ?_⟩
      rw [erase_mid p A B hpA]
      simpa using h2

/-- Witness for C18: the registry holding 3, 2, 1 on an unlocked world, assertions active. -/
theorem wellformed_preserved_witness :
    ActiveSet world123 [3, 2, 1]
    ∧ (∃ r w2, CreateParticleSystem true neverLocked world123 4 = .ok (r, w2)
        ∧ ActiveSet w2 [4, 3, 2, 1])
    ∧ (∃ w2, DestroyParticleSystem true neverLocked world123 2 = .ok w2
        ∧ ActiveSet w2 [3, 1]) := by
  have h := wellformed_preserved true neverLocked world123 [3, 2, 1] ActiveSet_world123
  refine ⟨ActiveSet_world123, ?_, ?_⟩
  · rcases h.2.1 4 (by decide) with ⟨_, hlk, _⟩ | ⟨r, w2, h1, h2⟩
    · cases hlk
    · exact ⟨r, w2, h1, h2⟩
  · rcases h.2.2 2 (by decide) with ⟨_, hlk, _⟩ | ⟨w2, h1, h2⟩
    · cases hlk
    · exact ⟨w2, h1, h2⟩

/-- C19: two shape handles are incomparable under `operator<` exactly when their `index1`
agree, whatever `world0` and `generation` are; handles differing only in those members are the
same key. -/
theorem operatorLt_equiv_iff_index1 (a b : b2ShapeId) :
    ((operatorLt a b = false ∧ operatorLt b a = false) ↔ a.index1 = b.index1)
    ∧ (∀ w0 g, operatorLt a ⟨a.index1, w0, g⟩ = false
        ∧ operatorLt ⟨a.index1, w0, g⟩ a = false) := by
  refine ⟨?_, fun w0 g => ?_⟩
  · simp only [operatorLt, decide_eq_false_iff_not]
    constructor
    · intro h; omega
    · intro h; omega
  · simp [operatorLt]

end LiquidFun
